import Mathlib

/-!
Verification development for the `is` testing library (package `is`, file
`is.go`): a shallow embedding of its equality/formatting engine, call-stack
resolver, AST source cache and failure-message decorator, together with
theorems about the behaviour of those functions.

Machine strings are modelled by Lean `String`; all string manipulation is
done by total, structurally recursive functions over `List Char` so that
every definition evaluates inside the kernel.
-/

/-! ## String helpers (models of the Go `strings` / `path/filepath` calls) -/

/-- Does the second list start with the first one?  Model of the comparison
underlying `strings.HasPrefix` on rune lists. -/
def chBegins : List Char → List Char → Bool
  | [], _ => true
  | _ :: _, [] => false
  | p :: ps, c :: cs => p == c && chBegins ps cs

/-- Model of `strings.HasSuffix s suf`. -/
def strHasSuffix (s suf : String) : Bool :=
  chBegins suf.data.reverse s.data.reverse

/-- Does `l` contain `sub` as a contiguous sublist? -/
def chContainsSub (sub : List Char) : List Char → Bool
  | [] => chBegins sub []
  | c :: rest => chBegins sub (c :: rest) || chContainsSub sub rest

/-- Model of `strings.Contains s sub`. -/
def strContainsSub (s sub : String) : Bool :=
  chContainsSub sub.data s.data

/-- Fuelled scanner for `strings.Replace(s, old, new, -1)`: replaces every
non-overlapping occurrence left to right, never rescanning the replacement.
The fuel is the length of the scanned list, which each step consumes. -/
def chReplaceF (old new : List Char) : Nat → List Char → List Char
  | 0, l => l
  | _, [] => []
  | fuel + 1, c :: rest =>
    if chBegins old (c :: rest) then
      new ++ chReplaceF old new fuel ((c :: rest).drop old.length)
    else
      c :: chReplaceF old new fuel rest

/-- Model of `strings.Replace(s, old, new, -1)` for non-empty `old`
(the library only ever replaces the token `"$ARGS"`). -/
def strReplaceAll (s old new : String) : String :=
  ⟨chReplaceF old.data new.data s.data.length s.data⟩

/-- Fuelled scanner for `strings.Split`: cuts the list at every
non-overlapping occurrence of the separator. -/
def chSplitF (sep : List Char) : Nat → List Char → List (List Char)
  | 0, _ => [[]]
  | _, [] => [[]]
  | fuel + 1, c :: rest =>
    if chBegins sep (c :: rest) then
      [] :: chSplitF sep fuel ((c :: rest).drop sep.length)
    else
      match chSplitF sep fuel rest with
      | [] => [[c]]
      | h :: t => (c :: h) :: t

/-- Model of `strings.Split s sep` for non-empty `sep` (the library splits
on `"\n"`, `"/"` and `"\\"` only). -/
def strSplitOn (s sep : String) : List String :=
  match sep.data with
  | [] => [s]
  | c :: cs => (chSplitF (c :: cs) s.data.length s.data).map fun l => ⟨l⟩

/-- ASCII white space, as trimmed by `strings.TrimSpace` (the Unicode-only
space code points never occur in the strings the library builds). -/
def goIsSpace (c : Char) : Bool :=
  c == ' ' || c == '\t' || c == '\n' || c == '\r' ||
  c == Char.ofNat 11 || c == Char.ofNat 12

/-- Model of `strings.TrimSpace`. -/
def strTrim (s : String) : String :=
  ⟨((s.data.dropWhile goIsSpace).reverse.dropWhile goIsSpace).reverse⟩

/-- Model of `filepath.Base` for the paths the library meets: `""` maps to
`"."`, otherwise the component after the last `/` is returned (call-stack
paths never end in a separator). -/
def filepathBase (p : String) : String :=
  if p == "" then "." else (strSplitOn p "/").getLastD p

/-! ## The value model

A `GoVal` is the shape of a Go `interface{}` argument as the reflection
code of `is.go` observes it: the untyped `nil`, scalars (booleans,
integers, strings, floating-point values), slices, arrays, maps, channels,
functions and pointers.  Reference-like values carry a `Nat` identity
standing for the machine word (data pointer / reference) reflection
compares; boxed scalars and arrays carry the identity of the heap cell the
interface points at.  In any state a running Go program can reach, that
word determines the pointed-at content, so two values are
`reflect.Value`-equal exactly when their representations here coincide.
Map keys are modelled as strings (the key type the library's tests use);
a map or slice that is `nil` at runtime uses the dedicated `…Nil`
constructor.  Complex kinds, whose `==` behaves like their two float
components, are not modelled separately. -/

/-- An IEEE floating-point value as Go's `==` distinguishes them: `nan`
(any NaN bit pattern), or a non-NaN value from an abstract carrier —
infinities are ordinary carrier members, and the two IEEE zeros, being
`==`-equal in Go, share a single representation. -/
inductive GoFloat where
  | nan
  | finite (v : Int)
deriving DecidableEq, Repr

/-- Go's `==` on floating-point values: NaN is unequal to everything,
itself included; all other values compare by value. -/
def floatEq : GoFloat → GoFloat → Bool
  | .nan, _ => false
  | _, .nan => false
  | .finite a, .finite b => a == b

inductive GoVal where
  | vnil
  | vbool (box : Nat) (b : Bool)
  | vint (t : String) (box : Nat) (n : Int)
  | vfloat (t : String) (box : Nat) (v : GoFloat)
  | vstring (box : Nat) (s : String)
  | vsliceNil (t : String)
  | vslice (t : String) (id : Nat) (elems : List GoVal)
  | varray (t : String) (box : Nat) (elems : List GoVal)
  | vmapNil (t : String)
  | vmap (t : String) (id : Nat) (entries : List (String × GoVal))
  | vchanNil (t : String)
  | vchan (t : String) (ref : Nat)
  | vfuncNil (t : String)
  | vfunc (t : String) (ref : Nat)
  | vptrNil (t : String)
  | vptr (t : String) (ref : Nat) (pointee : GoVal)

/-- The dynamic type of a value, as printed by `fmt.Sprintf("%T", v)` and
compared by `reflect.ValueOf(v).Type()`. -/
def typeStr : GoVal → String
  | .vnil => "<nil>"
  | .vbool _ _ => "bool"
  | .vint t _ _ => t
  | .vfloat t _ _ => t
  | .vstring _ _ => "string"
  | .vsliceNil t => t
  | .vslice t _ _ => t
  | .varray t _ _ => t
  | .vmapNil t => t
  | .vmap t _ _ => t
  | .vchanNil t => t
  | .vchan t _ => t
  | .vfuncNil t => t
  | .vfunc t _ => t
  | .vptrNil t => t
  | .vptr t _ _ => t

/-- Model of `isNil` (is.go:360-370): the untyped `nil`, or a value whose
kind lies in the `reflect.Chan … reflect.Slice` range (channel, function,
interface, map, pointer, slice) and whose runtime value `IsNil()`.
Interface-kind values cannot be produced by `reflect.ValueOf` on an
`interface{}` argument, so they have no constructor here. -/
def isNil : GoVal → Bool
  | .vnil => true
  | .vsliceNil _ => true
  | .vmapNil _ => true
  | .vchanNil _ => true
  | .vfuncNil _ => true
  | .vptrNil _ => true
  | _ => false

/-- First-match lookup of a key among map entries; model of `MapIndex`. -/
def lookupEntry (k : String) : List (String × GoVal) → Option GoVal
  | [] => none
  | (k2, v) :: rest => if k == k2 then some v else lookupEntry k rest

mutual

/-- Model of `reflect.DeepEqual` on the value model: values of distinct
dynamic types are never deeply equal; scalars compare by `==`; slices and
maps must agree on nil-ness and length and are equal when they share the
same storage word or their contents match (map entries by key); arrays
compare element-wise; channels compare by reference; non-nil functions are
never deeply equal (even to themselves); pointers are equal when they are
the same reference or their pointees are deeply equal. -/
def deepEqual : GoVal → GoVal → Bool
  | .vnil, .vnil => true
  | .vbool _ x, .vbool _ y => x == y
  | .vint t _ n, .vint u _ m => t == u && n == m
  | .vfloat t _ x, .vfloat u _ y => t == u && floatEq x y
  | .vstring _ x, .vstring _ y => x == y
  | .vsliceNil t, .vsliceNil u => t == u
  | .vslice t i xs, .vslice u j ys =>
      t == u && xs.length == ys.length && (i == j || deepEqualList xs ys)
  | .varray t _ xs, .varray u _ ys => t == u && deepEqualList xs ys
  | .vmapNil t, .vmapNil u => t == u
  | .vmap t i xs, .vmap u j ys =>
      t == u && xs.length == ys.length && (i == j || deepEqualEntries xs ys)
  | .vchanNil t, .vchanNil u => t == u
  | .vchan t r, .vchan u q => t == u && r == q
  | .vfuncNil t, .vfuncNil u => t == u
  | .vfunc _ _, .vfunc _ _ => false
  | .vptrNil t, .vptrNil u => t == u
  | .vptr t r x, .vptr u q y => t == u && (r == q || deepEqual x y)
  | _, _ => false

/-- Element-wise deep equality of slice/array contents. -/
def deepEqualList : List GoVal → List GoVal → Bool
  | [], [] => true
  | x :: xs, y :: ys => deepEqual x y && deepEqualList xs ys
  | _, _ => false

/-- Every entry of the first list must map, under the second list, to a
deeply equal value (the caller has already compared lengths). -/
def deepEqualEntries : List (String × GoVal) → List (String × GoVal) → Bool
  | [], _ => true
  | (k, v) :: xs, ys =>
      (match lookupEntry k ys with
       | some w => deepEqual v w
       | none => false) && deepEqualEntries xs ys

end

mutual

/-- Model of the fallback comparison `reflect.ValueOf(a) == reflect.ValueOf(b)`
(is.go:386-388).  Two `reflect.Value`s derived from interfaces are `==`
exactly when their dynamic types and their data words agree; since in the
value model a storage identity determines the content stored there, this
coincides with equality of representations. -/
def refValueEq : GoVal → GoVal → Bool
  | .vnil, .vnil => true
  | .vbool b x, .vbool c y => b == c && x == y
  | .vint t b n, .vint u c m => t == u && b == c && n == m
  | .vfloat t b x, .vfloat u c y => t == u && b == c && x == y
  | .vstring b x, .vstring c y => b == c && x == y
  | .vsliceNil t, .vsliceNil u => t == u
  | .vslice t i xs, .vslice u j ys => t == u && i == j && refValueEqList xs ys
  | .varray t b xs, .varray u c ys => t == u && b == c && refValueEqList xs ys
  | .vmapNil t, .vmapNil u => t == u
  | .vmap t i xs, .vmap u j ys => t == u && i == j && refValueEqEntries xs ys
  | .vchanNil t, .vchanNil u => t == u
  | .vchan t r, .vchan u q => t == u && r == q
  | .vfuncNil t, .vfuncNil u => t == u
  | .vfunc t r, .vfunc u q => t == u && r == q
  | .vptrNil t, .vptrNil u => t == u
  | .vptr t r x, .vptr u q y => t == u && r == q && refValueEq x y
  | _, _ => false

/-- Representation equality of slice/array contents. -/
def refValueEqList : List GoVal → List GoVal → Bool
  | [], [] => true
  | x :: xs, y :: ys => refValueEq x y && refValueEqList xs ys
  | _, _ => false

/-- Representation equality of map contents. -/
def refValueEqEntries : List (String × GoVal) → List (String × GoVal) → Bool
  | [], [] => true
  | (k, v) :: xs, (k2, w) :: ys => k == k2 && refValueEq v w && refValueEqEntries xs ys
  | _, _ => false

end

/-- Model of `areEqual` (is.go:373-389): if either operand is nil-like the
two are equal exactly when both are; otherwise `reflect.DeepEqual`, with the
`reflect.Value` comparison as a last-resort fallback. -/
def areEqual (a b : GoVal) : Bool :=
  if isNil a || isNil b then
    if isNil a && !isNil b then false
    else if !isNil a && isNil b then false
    else true
  else if deepEqual a b then true
  else refValueEq a b

/-! ## Value formatting -/

mutual

/-- Model of `fmt.Sprint(object)` on the value model, as invoked by
`formatValue`'s default branch and by `NoErr`.  Scalars print their Go
textual form; reference kinds print their machine word, abstracted here as
`0x` followed by the reference identity; slices and maps print their
bracketed `fmt` form (entries in the model's iteration order; these two
branches are unreachable from `formatValue`, which intercepts map, slice
and array kinds before calling `fmt.Sprint`). -/
def fmtSprint : GoVal → String
  | .vnil => "<nil>"
  | .vbool _ b => if b then "true" else "false"
  | .vint _ _ n => toString n
  | .vfloat _ _ .nan => "NaN"
  | .vfloat _ _ (.finite v) => toString v
  | .vstring _ s => s
  | .vsliceNil _ => "[]"
  | .vslice _ _ xs => "[" ++ fmtSprintSeq xs ++ "]"
  | .varray _ _ xs => "[" ++ fmtSprintSeq xs ++ "]"
  | .vmapNil _ => "map[]"
  | .vmap _ _ es => "map[" ++ fmtSprintEntrySeq es ++ "]"
  | .vchanNil _ => "<nil>"
  | .vchan _ r => "0x" ++ toString r
  | .vfuncNil _ => "<nil>"
  | .vfunc _ r => "0x" ++ toString r
  | .vptrNil _ => "<nil>"
  | .vptr _ r _ => "0x" ++ toString r

/-- Space-separated `fmt` rendering of sequence elements. -/
def fmtSprintSeq : List GoVal → String
  | [] => ""
  | [x] => fmtSprint x
  | x :: y :: rest => fmtSprint x ++ " " ++ fmtSprintSeq (y :: rest)

/-- Space-separated `fmt` rendering of map entries. -/
def fmtSprintEntrySeq : List (String × GoVal) → String
  | [] => ""
  | [(k, v)] => k ++ ":" ++ fmtSprint v
  | (k, v) :: e :: rest => k ++ ":" ++ fmtSprint v ++ " " ++ fmtSprintEntrySeq (e :: rest)

end

mutual

/-- Model of `formatValue` (is.go:207-240): nil-like values render as
`"nil"`; a map renders its entries as `key:value ` accumulated in iteration
order and trimmed; slices and arrays render their elements likewise;
everything else falls through to `fmt.Sprint`. -/
def formatValue (object : GoVal) : String :=
  if isNil object then "nil"
  else
    match object with
    | .vmap _ _ entries => strTrim (formatEntries entries)
    | .vslice _ _ elems => strTrim (formatElems elems)
    | .varray _ _ elems => strTrim (formatElems elems)
    | v => fmtSprint v

/-- The buffer written by `formatValue`'s map loop: one `key:value ` chunk
per entry, values rendered recursively. -/
def formatEntries : List (String × GoVal) → String
  | [] => ""
  | (k, v) :: rest => k ++ ":" ++ formatValue v ++ " " ++ formatEntries rest

/-- The buffer written by `formatValue`'s slice/array loop: one `value `
chunk per element, rendered recursively. -/
def formatElems : List GoVal → String
  | [] => ""
  | x :: rest => formatValue x ++ " " ++ formatElems rest

end

/-- The `aValue`/`bValue` pair `Equal` builds at is.go:173-181: the
formatted operands, each additionally wrapped as `Type(value)` when both
operands are non-nil and their dynamic types differ. -/
def equalValueStrings (a b : GoVal) : String × String :=
  let aType := typeStr a
  let bType := typeStr b
  let aValue := formatValue a
  let bValue := formatValue b
  if !(isNil a || isNil b) && !(typeStr a == typeStr b) then
    (aType ++ "(" ++ aValue ++ ")", bType ++ "(" ++ bValue ++ ")")
  else
    (aValue, bValue)

/-! ## Classification helpers used by the statements below -/

/-- Comparable scalar kinds of the model: booleans, integers, strings. -/
def isScalar : GoVal → Bool
  | .vbool _ _ => true
  | .vint _ _ _ => true
  | .vfloat _ _ _ => true
  | .vstring _ _ => true
  | _ => false

/-- The kinds `formatValue` flattens instead of passing to `fmt.Sprint`. -/
def isCompositeKind : GoVal → Bool
  | .vslice _ _ _ => true
  | .varray _ _ _ => true
  | .vmap _ _ _ => true
  | _ => false

mutual

/-- Neither a non-nil function value nor a floating-point NaN occurs
anywhere inside the value.  `reflect.DeepEqual` never equates non-nil
functions, even bit-identical ones, and compares floats with Go `==`
(which rejects NaN even against itself), so those two occurrences are the
obstructions to deep self-equality. -/
def deepSelfOk : GoVal → Bool
  | .vfunc _ _ => false
  | .vfloat _ _ .nan => false
  | .vslice _ _ xs => deepSelfOkList xs
  | .varray _ _ xs => deepSelfOkList xs
  | .vmap _ _ es => deepSelfOkEntries es
  | .vptr _ _ x => deepSelfOk x
  | _ => true

/-- `deepSelfOk` over sequence elements. -/
def deepSelfOkList : List GoVal → Bool
  | [] => true
  | x :: xs => deepSelfOk x && deepSelfOkList xs

/-- `deepSelfOk` over map entry values. -/
def deepSelfOkEntries : List (String × GoVal) → Bool
  | [] => true
  | (_, v) :: es => deepSelfOk v && deepSelfOkEntries es

end

set_option maxHeartbeats 1600000

mutual

theorem deepEqual_self : ∀ x : GoVal, deepSelfOk x = true → deepEqual x x = true
  | .vnil, _ => rfl
  | .vbool _ _, _ => by rw [deepEqual]; simp
  | .vint _ _ _, _ => by rw [deepEqual]; simp
  | .vfloat _ _ .nan, h => by rw [deepSelfOk] at h; exact absurd h (by simp)
  | .vfloat _ _ (.finite _), _ => by rw [deepEqual]; simp [floatEq]
  | .vstring _ _, _ => by rw [deepEqual]; simp
  | .vsliceNil _, _ => by rw [deepEqual]; simp
  | .vslice _ _ _, _ => by rw [deepEqual]; simp
  | .varray _ _ xs, h => by
      rw [deepSelfOk] at h
      rw [deepEqual, deepEqualList_self xs h]
      simp
  | .vmapNil _, _ => by rw [deepEqual]; simp
  | .vmap _ _ _, _ => by rw [deepEqual]; simp
  | .vchanNil _, _ => by rw [deepEqual]; simp
  | .vchan _ _, _ => by rw [deepEqual]; simp
  | .vfuncNil _, _ => by rw [deepEqual]; simp
  | .vfunc _ _, h => by rw [deepSelfOk] at h; exact absurd h (by simp)
  | .vptrNil _, _ => by rw [deepEqual]; simp
  | .vptr _ _ _, _ => by rw [deepEqual]; simp

theorem deepEqualList_self : ∀ xs : List GoVal, deepSelfOkList xs = true → deepEqualList xs xs = true
  | [], _ => rfl
  | x :: xs, h => by
      rw [deepSelfOkList, Bool.and_eq_true] at h
      rw [deepEqualList]
      rw [deepEqual_self x h.1]
      rw [deepEqualList_self xs h.2]
      rfl

end

theorem lookupEntry_self (es : List (String × GoVal))
    (hk : (es.map Prod.fst).Nodup) :
    ∀ kv ∈ es, lookupEntry kv.1 es = some kv.2 := by
  induction es with
  | nil => intro kv h; cases h
  | cons hd tl ih =>
      intro kv hm
      have hk2 : hd.1 ∉ tl.map Prod.fst ∧ (tl.map Prod.fst).Nodup := by
        rw [List.map_cons, List.nodup_cons] at hk
        exact hk
      rcases List.mem_cons.mp hm with hm | hm
      · subst hm
        simp [lookupEntry]
      · have hne : kv.1 ≠ hd.1 := by
          intro hcontra
          exact hk2.1 (hcontra ▸ List.mem_map_of_mem Prod.fst hm)
        have htl := ih hk2.2 kv hm
        obtain ⟨k1, v1⟩ := hd
        simp only [lookupEntry]
        rw [if_neg (by simpa using hne)]
        exact htl

theorem deepEqualEntries_of_lookup (full : List (String × GoVal)) :
    ∀ es : List (String × GoVal),
      (∀ kv ∈ es, lookupEntry kv.1 full = some kv.2 ∧ deepEqual kv.2 kv.2 = true) →
      deepEqualEntries es full = true := by
  intro es
  induction es with
  | nil => intro _; rfl
  | cons hd tl ih =>
      intro h
      have hhd := h hd (by simp)
      have htl := ih fun kv hm => h kv (List.mem_cons_of_mem hd hm)
      obtain ⟨k, v⟩ := hd
      have h1 : lookupEntry k full = some v := hhd.1
      have h2 : deepEqual v v = true := hhd.2
      rw [deepEqualEntries, h1]
      show (deepEqual v v && deepEqualEntries tl full) = true
      rw [h2, htl]
      rfl

theorem deepSelfOkEntries_mem :
    ∀ es : List (String × GoVal), deepSelfOkEntries es = true →
      ∀ kv ∈ es, deepSelfOk kv.2 = true
  | [], _ => by intro kv hm; cases hm
  | (k, v) :: rest, h => by
      rw [deepSelfOkEntries, Bool.and_eq_true] at h
      intro kv hm
      rcases List.mem_cons.mp hm with hm | hm
      · subst hm; exact h.1
      · exact deepSelfOkEntries_mem rest h.2 kv hm

/-- Concatenation of a list of strings; the spec-side reading of the
byte-buffer accumulation loops in `formatValue`. -/
def joinAll : List String → String
  | [] => ""
  | s :: rest => s ++ joinAll rest

theorem formatEntries_eq_joinAll :
    ∀ es, formatEntries es = joinAll (es.map fun kv => kv.1 ++ ":" ++ formatValue kv.2 ++ " ")
  | [] => rfl
  | (k, v) :: rest => by
      rw [formatEntries, List.map_cons, joinAll, formatEntries_eq_joinAll rest]

theorem formatElems_eq_joinAll :
    ∀ xs, formatElems xs = joinAll (xs.map fun x => formatValue x ++ " ")
  | [] => rfl
  | x :: rest => by
      rw [formatElems, List.map_cons, joinAll, formatElems_eq_joinAll rest]

/-! ## Claims about the equality engine and the value formatter -/

/-- C1: For every pair of values a, b where at least one is nil-like (the
literal nil, or a channel, function, map, pointer or slice whose runtime
value is nil), `areEqual a b` is true exactly when both are nil-like,
regardless of their kinds and declared types. -/
theorem areEqual_nilLike_iff (a b : GoVal) (h : (isNil a || isNil b) = true) :
    areEqual a b = (isNil a && isNil b) := by
  cases ha : isNil a <;> cases hb : isNil b
  · rw [ha, hb] at h; exact absurd h (by simp)
  · simp [areEqual, ha, hb]
  · simp [areEqual, ha, hb]
  · simp [areEqual, ha, hb]

/-- Witness for C1 at a concrete input: untyped nil against a non-nil
channel value. -/
theorem areEqual_nilLike_iff_witness :
    (isNil GoVal.vnil || isNil (GoVal.vchan "chan int" 3)) = true ∧
    areEqual GoVal.vnil (GoVal.vchan "chan int" 3) =
      (isNil GoVal.vnil && isNil (GoVal.vchan "chan int" 3)) :=
  ⟨by decide, areEqual_nilLike_iff _ _ (by decide)⟩

/-- C2 counterexample: two independently constructed slices (distinct
storage identities 1 and 2) with the same single element — one non-nil
function value — are NOT equal: `reflect.DeepEqual` never equates non-nil
functions and the `reflect.Value` fallback sees distinct storage.  (A
`[]float64{NaN}` pair fails the same way, since `DeepEqual` compares
floats with Go `==`.) -/
theorem areEqual_sameElems_counterexample :
    areEqual (GoVal.vslice "[]func()" 1 [GoVal.vfunc "func()" 7])
      (GoVal.vslice "[]func()" 2 [GoVal.vfunc "func()" 7]) = false ∧
    areEqual (GoVal.vslice "[]float64" 1 [GoVal.vfloat "float64" 0 GoFloat.nan])
      (GoVal.vslice "[]float64" 2 [GoVal.vfloat "float64" 3 GoFloat.nan]) = false := by
  constructor
  · decide
  · decide

/-- C2 (amended): two independently constructed sequences with the same
elements in the same order, or two independently constructed mappings with
the same key/value entries (keys distinct, as Go maps guarantee), are equal
despite occupying distinct underlying storage, provided neither a non-nil
function value nor a floating-point NaN occurs inside the elements/entry
values (`reflect.DeepEqual` compares functions and floats such that those
are never deeply equal, even to themselves, and the same-reference
fallback sees distinct storage). -/
theorem areEqual_deepContent (t u : String) (i j p q : Nat)
    (xs : List GoVal) (es : List (String × GoVal))
    (hxs : deepSelfOkList xs = true) (hes : deepSelfOkEntries es = true)
    (hkeys : (es.map Prod.fst).Nodup) :
    areEqual (GoVal.vslice t i xs) (GoVal.vslice t j xs) = true ∧
    areEqual (GoVal.vmap u p es) (GoVal.vmap u q es) = true := by
  constructor
  · have hl := deepEqualList_self xs hxs
    simp [areEqual, isNil, deepEqual, hl]
  · have hlk := lookupEntry_self es hkeys
    have hde := deepEqualEntries_of_lookup es es fun kv hm =>
      ⟨hlk kv hm, deepEqual_self kv.2 (deepSelfOkEntries_mem es hes kv hm)⟩
    simp [areEqual, isNil, deepEqual, hde]

/-- Witness for the amended C2 at concrete inputs: same contents, distinct
storage identities, equal. -/
theorem areEqual_deepContent_witness :
    areEqual (GoVal.vslice "[]int" 1 [GoVal.vint "int" 0 1, GoVal.vint "int" 1 2])
      (GoVal.vslice "[]int" 2 [GoVal.vint "int" 0 1, GoVal.vint "int" 1 2]) = true ∧
    areEqual (GoVal.vmap "map[string]int" 1 [("value", GoVal.vint "int" 0 1)])
      (GoVal.vmap "map[string]int" 2 [("value", GoVal.vint "int" 0 1)]) = true :=
  areEqual_deepContent _ _ _ _ _ _ _ _ (by decide) (by decide) (by decide)

/-- C3 counterexample: the comparable scalar `math.NaN()` compared to
itself is NOT equal — each argument's interface conversion allocates its
own box (identities 0 and 1), `reflect.DeepEqual` compares floats with Go
`==` which rejects NaN even against itself, and the `reflect.Value`
fallback compares the two distinct boxes. -/
theorem areEqual_nan_counterexample :
    areEqual (GoVal.vfloat "float64" 0 GoFloat.nan)
      (GoVal.vfloat "float64" 1 GoFloat.nan) = false := by decide

/-- C3 (amended): every comparable scalar other than a floating-point NaN
equals itself under `areEqual` (a NaN passed through two separately boxed
interface arguments is unequal to itself); and two distinct scalar values
of the same comparable type are never equal — in particular the
`reflect.Value` fallback taken after deep equality fails cannot equate
distinct scalars, whatever heap cells the interfaces point at. -/
theorem areEqual_scalars :
    (∀ x, isScalar x = true → deepSelfOk x = true → areEqual x x = true) ∧
    (∀ t b c n m, n ≠ m → areEqual (GoVal.vint t b n) (GoVal.vint t c m) = false) ∧
    (∀ t b c x y, x ≠ y → areEqual (GoVal.vfloat t b x) (GoVal.vfloat t c y) = false) ∧
    (∀ b c x y, x ≠ y → areEqual (GoVal.vbool b x) (GoVal.vbool c y) = false) ∧
    (∀ b c s u, s ≠ u → areEqual (GoVal.vstring b s) (GoVal.vstring c u) = false) := by
  refine ⟨?_, ?_, ?_, ?_, ?_⟩
  · intro x hx hok
    have hnil : isNil x = false := by
      cases x <;> first | rfl | simp [isScalar] at hx
    have hde := deepEqual_self x hok
    simp [areEqual, hnil, hde]
  · intro t b c n m hnm
    have h1 : (n == m) = false := by simpa using hnm
    simp [areEqual, isNil, deepEqual, refValueEq, h1]
  · intro t b c x y hxy
    have h1 : (x == y) = false := by simpa using hxy
    have h2 : floatEq x y = false := by
      cases x <;> cases y <;> simp [floatEq] <;> simpa using hxy
    simp [areEqual, isNil, deepEqual, refValueEq, h1, h2]
  · intro b c x y hxy
    have h1 : (x == y) = false := by simpa using hxy
    simp [areEqual, isNil, deepEqual, refValueEq, h1]
  · intro b c s u hsu
    have h1 : (s == u) = false := by simpa using hsu
    simp [areEqual, isNil, deepEqual, refValueEq, h1]

/-- Witness for the amended C3 at concrete scalar inputs, non-NaN float
reflexivity included. -/
theorem areEqual_scalars_witness :
    areEqual (GoVal.vint "int" 0 1) (GoVal.vint "int" 0 1) = true ∧
    areEqual (GoVal.vfloat "float64" 0 (GoFloat.finite 2))
      (GoVal.vfloat "float64" 0 (GoFloat.finite 2)) = true ∧
    areEqual (GoVal.vint "int" 0 1) (GoVal.vint "int" 1 2) = false ∧
    areEqual (GoVal.vfloat "float64" 0 (GoFloat.finite 2))
      (GoVal.vfloat "float64" 1 (GoFloat.finite 3)) = false ∧
    areEqual (GoVal.vbool 0 true) (GoVal.vbool 1 false) = false ∧
    areEqual (GoVal.vstring 0 "a") (GoVal.vstring 1 "b") = false :=
  ⟨areEqual_scalars.1 _ (by decide) (by decide),
   areEqual_scalars.1 _ (by decide) (by decide),
   areEqual_scalars.2.1 "int" 0 1 1 2 (by decide),
   areEqual_scalars.2.2.1 "float64" 0 1 (GoFloat.finite 2) (GoFloat.finite 3) (by decide),
   areEqual_scalars.2.2.2.1 0 1 true false (by decide),
   areEqual_scalars.2.2.2.2 0 1 "a" "b" (by decide)⟩

/-- C9: `formatValue` renders nil-like values as `"nil"`; maps as trimmed
space-separated `key:value` chunks with values rendered recursively; slices
and arrays as trimmed space-separated recursively rendered elements with no
enclosing brackets added; everything else by `fmt.Sprint`; and when
`Equal`'s operands are both non-nil with different dynamic types, each
rendered value is additionally wrapped as `Type(value)`. -/
theorem formatValue_spec :
    (∀ v, isNil v = true → formatValue v = "nil") ∧
    (∀ t i es, formatValue (GoVal.vmap t i es) =
      strTrim (joinAll (es.map fun kv => kv.1 ++ ":" ++ formatValue kv.2 ++ " "))) ∧
    (∀ t i xs, formatValue (GoVal.vslice t i xs) =
      strTrim (joinAll (xs.map fun x => formatValue x ++ " "))) ∧
    (∀ t b xs, formatValue (GoVal.varray t b xs) =
      strTrim (joinAll (xs.map fun x => formatValue x ++ " "))) ∧
    (∀ v, isNil v = false → isCompositeKind v = false → formatValue v = fmtSprint v) ∧
    (∀ a b, isNil a = false → isNil b = false → (typeStr a == typeStr b) = false →
      equalValueStrings a b =
        (typeStr a ++ "(" ++ formatValue a ++ ")",
         typeStr b ++ "(" ++ formatValue b ++ ")")) := by
  refine ⟨?_, ?_, ?_, ?_, ?_, ?_⟩
  · intro v hv
    cases v <;> simp_all [isNil, formatValue]
  · intro t i es
    show strTrim (formatEntries es) = _
    rw [formatEntries_eq_joinAll]
  · intro t i xs
    show strTrim (formatElems xs) = _
    rw [formatElems_eq_joinAll]
  · intro t b xs
    show strTrim (formatElems xs) = _
    rw [formatElems_eq_joinAll]
  · intro v h1 h2
    cases v <;> simp_all [isNil, isCompositeKind, formatValue]
  · intro a b h1 h2 h3
    simp [equalValueStrings, h1, h2, h3]

/-- Witness for C9 at concrete inputs, including a `Type(value)` wrapping
for operands of different dynamic types. -/
theorem formatValue_spec_witness :
    formatValue GoVal.vnil = "nil" ∧
    formatValue (GoVal.vchan "chan int" 3) = fmtSprint (GoVal.vchan "chan int" 3) ∧
    equalValueStrings (GoVal.vint "int32" 0 1) (GoVal.vint "int64" 1 1) =
      ("int32" ++ "(" ++ formatValue (GoVal.vint "int32" 0 1) ++ ")",
       "int64" ++ "(" ++ formatValue (GoVal.vint "int64" 1 1) ++ ")") :=
  ⟨formatValue_spec.1 GoVal.vnil (by decide),
   formatValue_spec.2.2.2.2.1 _ (by decide) (by decide),
   formatValue_spec.2.2.2.2.2 _ _ (by decide) (by decide) (by decide)⟩

/-! ## Call-stack resolver -/

/-- A call-stack frame as `runtime.Caller` reports it: source file path and
line number. -/
structure Frame where
  path : String
  line : Nat
deriving DecidableEq, Repr

/-- Model of `callerinfo` (is.go:425-436): `runtime.Caller i` for
`i = 0, 1, …` enumerates the stack outward; every frame whose file path
ends in `"is.go"` is skipped; the first remaining frame is returned and
exhaustion gives the not-found result (`ok = false`, modelled `none`). -/
def callerinfo : List Frame → Option Frame
  | [] => none
  | f :: rest => if strHasSuffix f.path "is.go" then callerinfo rest else some f

/-- Modelled from the spec: "returns the (file, line) of the first stack
frame, walking outward from the current point, whose source file name does
not match the harness's own source file" — the first frame whose base file
name differs from `is.go`. -/
def callerinfoSpec (stack : List Frame) : Option Frame :=
  stack.find? fun f => !(filepathBase f.path == "is.go")

/-! ## AST node and panic model -/

/-- A Go runtime panic raised on the library's code paths. -/
inductive GoPanic where
  | typeAssertion
  | nilDeref
  | indexOutOfRange
deriving DecidableEq, Repr

/-- Rendered form of an `*ast.AssignStmt` (what `nodeToStr` prints). -/
structure AssignStmtNode where
  text : String
deriving DecidableEq, Repr

/-- The `Decl` stored in an `ast.Object`: an assignment statement, or some
other declaration form (`*ast.ValueSpec`, `*ast.Field`, …) with its
rendered text. -/
inductive ObjDecl where
  | assign (stmt : AssignStmtNode)
  | valueSpec (text : String)
  | field (text : String)
  | otherDecl (text : String)
deriving DecidableEq, Repr

/-- Model of `*ast.Object`; its `Decl` may be nil. -/
structure AstObj where
  decl : Option ObjDecl
deriving DecidableEq, Repr

/-- Model of `*ast.Ident`: the name and the optional resolved `Obj`
(nil for identifiers the parser could not resolve). -/
structure AstIdent where
  name : String
  obj : Option AstObj
deriving DecidableEq, Repr

/-- An argument expression of a call: an identifier, or some other
expression carrying the text `nodeToStr` renders for it. -/
inductive ArgExpr where
  | identArg (i : AstIdent)
  | otherArg (text : String)
deriving DecidableEq, Repr

/-- The shape of `callExpr.Fun`: a selector whose receiver is an
identifier, a selector with a non-identifier receiver, or no selector. -/
inductive FunShape where
  | selIdent (recv : String) (sel : String)
  | selOther (sel : String)
  | notSelector
deriving DecidableEq, Repr

/-- Model of an `*ast.CallExpr` as the source cache stores it. -/
structure CallExprNode where
  line : Nat
  fn : FunShape
  args : List ArgExpr
deriving DecidableEq, Repr

/-- Model of `nodeToStr` on argument expressions: `format.Node` renders an
identifier as its name; other expressions carry their rendered text. -/
def nodeToStrArg : ArgExpr → String
  | .identArg i => i.name
  | .otherArg t => t

/-- Model of `findAssignStmtFromIdent` (is.go:299-309): a nil `Obj` or nil
`Obj.Decl` yields nil; otherwise the unchecked type assertion
`ident.Obj.Decl.(*ast.AssignStmt)` panics whenever the declaration is not
an assignment statement. -/
def findAssignStmtFromIdent (ident : AstIdent) : Except GoPanic (Option AssignStmtNode) :=
  match ident.obj with
  | none => .ok none
  | some o =>
    match o.decl with
    | none => .ok none
    | some (.assign stmt) => .ok (some stmt)
    | some _ => .error .typeAssertion

/-! ## Source index (parse cache) -/

/-- A comment group of a parsed file: the line of its `Pos()` (positions
are valid in the model) and the text `(*ast.CommentGroup).Text()` yields. -/
structure CommentNode where
  line : Nat
  text : String
deriving DecidableEq, Repr

/-- One file's parse result: its comment groups, and its call expressions
in the order `ast.Inspect` visits them (calls nested inside a recorded
`is.…` call are absent, mirroring `Inspect` returning false there). -/
structure ParsedFile where
  comments : List CommentNode
  calls : List CallExprNode
deriving DecidableEq, Repr

/-- The parser oracle: during a run `parser.ParseFile` is a pure function
of the path; `none` models a parse error (missing, unreadable or invalid
file). -/
abbrev FS : Type := String → Option ParsedFile

/-- A node stored in the AST cache. -/
inductive AstNode where
  | commentGroup (text : String)
  | callExpr (c : CallExprNode)
deriving DecidableEq, Repr

/-- One file's cache: the Go map from `"Kind:line"` keys to nodes,
modelled as an association list where inserts prepend and lookup takes the
most recent binding. -/
abbrev FileCache : Type := List (String × AstNode)

/-- The process-wide `astCache`, keyed by file path. -/
abbrev AstCache : Type := List (String × FileCache)

/-- The two `cacheEntryType` constants of is.go:80-81. -/
inductive CacheEntryType where
  | comment
  | isCall
deriving DecidableEq, Repr

/-- The literal strings of the two cache entry types. -/
def CacheEntryType.str : CacheEntryType → String
  | .comment => "Comment"
  | .isCall => "IsCall"

/-- The `fmt.Sprintf("%s:%d", kind, line)` cache key. -/
def cacheKey (kind : CacheEntryType) (line : Nat) : String :=
  kind.str ++ ":" ++ toString line

/-- The comment loop of `getNodeFromCache` (is.go:466-474): every comment
group is stored under `Comment:<line>`. -/
def storeComments : FileCache → List CommentNode → FileCache
  | fc, [] => fc
  | fc, c :: rest => storeComments ((cacheKey .comment c.line, .commentGroup c.text) :: fc) rest

/-- The `ast.Inspect` walk of `getNodeFromCache` (is.go:476-505): a call
expression is recorded under `IsCall:<line>` exactly when its function is a
selector whose receiver is an identifier literally named `"is"`. -/
def storeCalls : FileCache → List CallExprNode → FileCache
  | fc, [] => fc
  | fc, c :: rest =>
    match c.fn with
    | .selIdent recv _ =>
        if recv == "is" then storeCalls ((cacheKey .isCall c.line, .callExpr c) :: fc) rest
        else storeCalls fc rest
    | _ => storeCalls fc rest

/-- The file cache built for a freshly parsed file: comments stored first,
then the `is.…` calls, into the empty map installed by `getFileCache`. -/
def buildFileCache (f : ParsedFile) : FileCache :=
  storeCalls (storeComments [] f.comments) f.calls

/-- Model of `getFileCache` (is.go:438-448): return the existing per-file
map, or install and return a fresh empty one, reporting which happened. -/
def getFileCache (cache : AstCache) (path : String) : FileCache × Bool × AstCache :=
  match List.lookup path cache with
  | some fc => (fc, false, cache)
  | none => ([], true, (path, []) :: cache)

deriving instance DecidableEq for Except

/-- The outcome of one `getNodeFromCache` call, instrumented with whether
`parser.ParseFile` ran during it. -/
structure CacheResult where
  result : Except String AstNode
  parsed : Bool
  cache : AstCache
deriving DecidableEq, Repr

/-- Model of `getNodeFromCache` (is.go:450-513) for SEQUENTIAL request
histories, where one call runs to completion before the next begins (the
Go code has no synchronization, so only then is the call atomic; the
interleaved behaviour of its individual shared-memory steps is modelled
separately by `threadStep` below).  A cache hit returns the node; a miss
on an already-cached file fails without re-parsing (the per-file map is
not new); a miss on a fresh path parses the file once — on parse failure
the freshly installed empty file map stays, making the failure permanent —
otherwise every comment and every `is.…` call is stored (mutating the map
`astCache` references) and the key is looked up again. -/
def getNodeFromCache (fs : FS) (cache : AstCache) (kind : CacheEntryType)
    (path : String) (line : Nat) : CacheResult :=
  let key := cacheKey kind line
  match getFileCache cache path with
  | (fileCache, newCacheEntry, cache1) =>
    match List.lookup key fileCache with
    | some entry => ⟨.ok entry, false, cache1⟩
    | none =>
      if !newCacheEntry then ⟨.error ("key " ++ key ++ " not found in cache"), false, cache1⟩
      else
        match fs path with
        | none => ⟨.error "parse error", true, cache1⟩
        | some f =>
          let fc2 := storeCalls (storeComments fileCache f.comments) f.calls
          let cache2 := (path, fc2) :: cache1
          match List.lookup key fc2 with
          | some entry => ⟨.ok entry, true, cache2⟩
          | none => ⟨.error ("key " ++ key ++ " not found in cache"), true, cache2⟩

/-! ## Argument and comment lookup -/

/-- The ambient immutable context of a harness call: the runtime call
stack above the assertion, and the parser oracle. -/
structure Env where
  stack : List Frame
  fs : FS

/-- Model of `getArgExprs` (is.go:391-408): resolve the caller, fetch the
`IsCall` node cached for that line, and return the call's argument
expressions. -/
def getArgExprs (env : Env) (cache : AstCache) : Except String (List ArgExpr) × AstCache :=
  match callerinfo env.stack with
  | none => (.error "could not find args", cache)
  | some fr =>
    let r := getNodeFromCache env.fs cache .isCall fr.path fr.line
    match r.result with
    | .error e => (.error e, r.cache)
    | .ok (.callExpr ce) => (.ok ce.args, r.cache)
    | .ok (.commentGroup _) => (.error "not a call expr", r.cache)

/-- Model of `getArgNames` (is.go:410-423): the argument expressions of the
call site, each rendered back to source text. -/
def getArgNames (env : Env) (cache : AstCache) : Except String (List String) × AstCache :=
  match getArgExprs env cache with
  | (.error e, c) => (.error e, c)
  | (.ok args, c) => (.ok (args.map nodeToStrArg), c)

/-- Model of `getElementFrom` (is.go:242-249): index into the list, or the
default when the list is nil/too short (the nil list is modelled `[]`). -/
def getElementFrom (array : List String) (idx : Nat) (orDefault : String) : String :=
  if array.length ≤ idx then orDefault else array.getD idx orDefault

/-- Model of `formatCallExprArgs` (is.go:524-539): only `True` calls have
extractable argument text (`Args[0]` rendered); any other selector name —
and a non-selector function — yields the empty string.  `callExpr.Args[0]`
panics when the parsed call carries no arguments. -/
def formatCallExprArgs (c : CallExprNode) : Except GoPanic String :=
  match c.fn with
  | .notSelector => .ok ""
  | .selIdent _ sel | .selOther sel =>
      if sel == "True" then
        match c.args with
        | [] => .error .indexOutOfRange
        | a :: _ => .ok (nodeToStrArg a)
      else .ok ""

/-- What `loadComment` (is.go:543-556) makes of a cache lookup result: the
comment group's text trimmed; every failure is the not-found result. -/
def commentOfNode : Except String AstNode → Option String
  | .error _ => none
  | .ok (.callExpr _) => none
  | .ok (.commentGroup t) => some (strTrim t)

/-- Model of `loadComment` (is.go:543-556). -/
def loadComment (fs : FS) (cache : AstCache) (path : String) (line : Nat) :
    Option String × AstCache :=
  let r := getNodeFromCache fs cache .comment path line
  (commentOfNode r.result, r.cache)

/-- What `loadArguments` (is.go:560-577) makes of a cache lookup result:
the formatted argument text of the `IsCall` node; a missing node and empty
argument text are both the not-found result. -/
def argsOfNode : Except String AstNode → Except GoPanic (Option String)
  | .error _ => .ok none
  | .ok (.commentGroup _) => .ok none
  | .ok (.callExpr ce) =>
    match formatCallExprArgs ce with
    | .error p => .error p
    | .ok s => if s == "" then .ok none else .ok (some s)

/-- Model of `loadArguments` (is.go:560-577). -/
def loadArguments (fs : FS) (cache : AstCache) (path : String) (line : Nat) :
    Except GoPanic (Option String) × AstCache :=
  let r := getNodeFromCache fs cache .isCall path line
  (argsOfNode r.result, r.cache)

/-! ## Decorator and assertion pipeline -/

/-- ANSI escape written around the location (is.go:637-642). -/
def colorFile : String := "\x1b[90m"

/-- ANSI escape written around the comment. -/
def colorComment : String := "\x1b[32m"

/-- ANSI escape written around type annotations. -/
def colorType : String := "\x1b[90m"

/-- ANSI escape restoring the normal foreground colour. -/
def colorNormal : String := "\x1b[39m"

/-- The file name `decorate` prints (is.go:584-591): `filepath.Base`,
then truncation after the last `/` or `\`. -/
def decorateFileName (path : String) : String :=
  let file := filepathBase path
  if strContainsSub file "/" then (strSplitOn file "/").getLastD file
  else if strContainsSub file "\\" then (strSplitOn file "\\").getLastD file
  else file

/-- The line loop of `decorate` (is.go:610-621): continuation lines are
prefixed with `"\n\t\t"`; a line containing `$ARGS` triggers an argument
lookup (whose found flag is discarded, so a failed lookup substitutes the
empty string) and every occurrence of the token is replaced.  The lookup
may mutate the cache, which is threaded through the loop. -/
def decorateLines (fs : FS) (path : String) (lineNumber : Nat) :
    List String → String → Bool → AstCache → Except GoPanic (String × AstCache)
  | [], acc, _, cache => .ok (acc, cache)
  | l :: rest, acc, first, cache =>
    let pre := if first then "" else "\n\t\t"
    if strContainsSub l "$ARGS" then
      match loadArguments fs cache path lineNumber with
      | (.error p, _) => .error p
      | (.ok argOpt, cache1) =>
          decorateLines fs path lineNumber rest
            (acc ++ pre ++ strReplaceAll l "$ARGS" (argOpt.getD "")) false cache1
    else
      decorateLines fs path lineNumber rest (acc ++ pre ++ l) false cache

/-- The list of message lines `decorate` iterates over (is.go:606-609):
split on `"\n"`, with one trailing empty line dropped. -/
def messageLines (s : String) : List String :=
  let lines0 := strSplitOn s "\n"
  if lines0.length > 1 && (lines0.getLastD "" == "") then lines0.dropLast else lines0

/-- The trailing-comment segment `decorate` appends (is.go:622-632). -/
def commentSuffix (colorful : Bool) (copt : Option String) : String :=
  match copt with
  | some cm => (if colorful then colorComment else "") ++ " // " ++ cm
      ++ (if colorful then colorNormal else "")
  | none => ""

/-- The `path` variable of `decorate` after the `callerinfo` call: the
resolved frame's path, or `runtime.Caller`'s zero value `""` on failure. -/
def resolvedPath (st : List Frame) : String :=
  match callerinfo st with
  | some fr => fr.path
  | none => ""

/-- The `file` variable of `decorate` (is.go:584-595): the truncated base
name on success, the sentinel `"???"` on failure. -/
def resolvedFile (st : List Frame) : String :=
  match callerinfo st with
  | some fr => decorateFileName fr.path
  | none => "???"

/-- The `lineNumber` variable of `decorate`: the resolved frame's line, or
the sentinel 1 on failure. -/
def resolvedLine (st : List Frame) : Nat :=
  match callerinfo st with
  | some fr => fr.line
  | none => 1

/-- The tail of `decorate` (is.go:622-634): given the prefix and the line
loop's outcome, append the cached trailing comment and the final newline. -/
def decorateFinish (colorful : Bool) (fs : FS) (path : String) (lineNumber : Nat)
    (head : String) : Except GoPanic (String × AstCache) → Except GoPanic (String × AstCache)
  | .error p => .error p
  | .ok (body, cache1) =>
    let rc := loadComment fs cache1 path lineNumber
    .ok (head ++ body ++ commentSuffix colorful rc.1 ++ "\n", rc.2)

/-- Model of `decorate` (is.go:582-635): resolve the call site (sentinel
file `"???"` and line 1 when no external frame exists), emit the tab and
the `file:line: ` prefix (optionally colourised), run the line loop over
the message lines, append the trailing comment when one is cached, and
close with a newline. -/
def decorate (colorful : Bool) (env : Env) (cache : AstCache) (s : String) :
    Except GoPanic (String × AstCache) :=
  let path := resolvedPath env.stack
  let lineNumber := resolvedLine env.stack
  let head := "\t" ++ (if colorful then colorFile else "")
      ++ resolvedFile env.stack ++ ":" ++ toString lineNumber ++ ": "
      ++ (if colorful then colorNormal else "")
  decorateFinish colorful env.fs path lineNumber head
    (decorateLines env.fs path lineNumber (messageLines s) "" true cache)

/-- The observable effect of one assertion call: the blocks written to the
output sink, the number of failure-callback invocations, and the cache. -/
structure Outcome where
  written : List String
  failCalls : Nat
  cache : AstCache
deriving DecidableEq, Repr

/-- Model of `I.log` (is.go:113-117): decorate the message, write exactly
one block to the sink, then invoke the failure callback once. -/
def logCall (colorful : Bool) (env : Env) (cache : AstCache) (msg : String) :
    Except GoPanic Outcome :=
  match decorate colorful env cache msg with
  | .error p => .error p
  | .ok (s, c) => .ok ⟨[s], 1, c⟩

namespace I

/-- Model of `I.Fail` (is.go:132-134): log `"failed"` unconditionally. -/
def Fail (colorful : Bool) (env : Env) (cache : AstCache) : Except GoPanic Outcome :=
  logCall colorful env cache "failed"

/-- Model of `I.True` (is.go:148-152): log `"not true: $ARGS"` when the
expression is false, do nothing otherwise. -/
def True (colorful : Bool) (env : Env) (cache : AstCache) (expression : Bool) :
    Except GoPanic Outcome :=
  if !expression then logCall colorful env cache "not true: $ARGS"
  else .ok ⟨[], 0, cache⟩

/-- Model of `I.Equal` (is.go:165-205): nothing when `areEqual`; otherwise
the argument names are fetched (empty on failure), the operand renderings
(with the type wrapping of is.go:178-181) are each labelled with the
argument name when they differ from it, and one `a != b` line is logged. -/
def Equal (colorful : Bool) (env : Env) (cache : AstCache) (a b : GoVal) :
    Except GoPanic Outcome :=
  if areEqual a b then .ok ⟨[], 0, cache⟩
  else
    let r := getArgNames env cache
    let argNames : List String := match r.1 with | .ok l => l | .error _ => []
    let aName := getElementFrom argNames 0 ""
    let bName := getElementFrom argNames 1 ""
    let vals := equalValueStrings a b
    let aValue :=
      if !(vals.1 == aName) then
        if colorful then aName ++ colorType ++ "(" ++ vals.1 ++ ")" ++ colorNormal
        else aName ++ "(" ++ vals.1 ++ ")"
      else vals.1
    let bValue :=
      if !(vals.2 == bName) then
        if colorful then bName ++ colorType ++ "(" ++ vals.2 ++ ")" ++ colorNormal
        else bName ++ "(" ++ vals.2 ++ ")"
      else vals.2
    logCall colorful env r.2 (aValue ++ " != " ++ bValue)

/-- Model of `I.NoErr` (is.go:323-357): nothing for a nil error; when the
argument expressions cannot be fetched or are empty, log the error's `%v`
rendering; otherwise derive the error source text — the first argument's
rendered name, upgraded to its declaring assignment statement when the
argument is an identifier whose `Obj.Decl` is one.  Dereferencing
`errVar.Obj.Decl` panics when `Obj` is nil, and
`findAssignStmtFromIdent` panics when the declaration is not an
assignment statement. -/
def NoErr (colorful : Bool) (env : Env) (cache : AstCache) (err : Option GoVal) :
    Except GoPanic Outcome :=
  match err with
  | none => .ok ⟨[], 0, cache⟩
  | some e =>
    let mkErrStr := fun (src : String) =>
      if colorful then "error: " ++ formatValue e ++ colorType ++ "(" ++ src ++ ")" ++ colorNormal
      else "error: " ++ formatValue e ++ "(" ++ src ++ ")"
    let r := getArgExprs env cache
    match r.1 with
    | .error _ => logCall colorful env r.2 (fmtSprint e)
    | .ok [] => logCall colorful env r.2 (fmtSprint e)
    | .ok (argExpr :: _) =>
      let r2 := getArgNames env r.2
      let argNames : List String := match r2.1 with | .ok l => l | .error _ => []
      let errSrc0 := getElementFrom argNames 0 ""
      match argExpr with
      | .otherArg _ => logCall colorful env r2.2 (mkErrStr errSrc0)
      | .identArg ident =>
        match ident.obj with
        | none => .error .nilDeref
        | some o =>
          match o.decl with
          | none => logCall colorful env r2.2 (mkErrStr errSrc0)
          | some _ =>
            match findAssignStmtFromIdent ident with
            | .error p => .error p
            | .ok none => logCall colorful env r2.2 (mkErrStr errSrc0)
            | .ok (some stmt) => logCall colorful env r2.2 (mkErrStr stmt.text)

end I

/-! ## Claims about the resolver and the assertion pipeline -/

/-- C6 counterexample: on the stack `analysis.go → main.go`, the first
frame's file NAME (`analysis.go`) does not match the harness's own source
file `is.go`, yet `callerinfo` skips it, because the code matches by the
path suffix `"is.go"` and `analysis.go` ends with it. -/
theorem callerinfo_suffix_counterexample :
    callerinfo [⟨"/x/analysis.go", 10⟩, ⟨"/x/main.go", 5⟩] ≠
      callerinfoSpec [⟨"/x/analysis.go", 10⟩, ⟨"/x/main.go", 5⟩] := by decide

/-- C6 (amended): `callerinfo`, walking the stack outward, returns the
first frame whose source file path does not end with `"is.go"` (so files
such as `analysis.go` are also treated as the harness's own), and the
not-found result when the stack is exhausted without such a frame. -/
theorem callerinfo_firstNonSuffix (stack : List Frame) :
    callerinfo stack = stack.find? fun f => !(strHasSuffix f.path "is.go") := by
  induction stack with
  | nil => rfl
  | cons f rest ih =>
      rw [callerinfo]
      cases h : strHasSuffix f.path "is.go"
      · rw [if_neg (by simp [h]), List.find?_cons_of_pos _ (by simp [h])]
      · rw [if_pos (by simp [h]), ih, List.find?_cons_of_neg _ (by simp [h])]

/-- C4 (code bug): `findAssignStmtFromIdent` runs the unchecked type
assertion `ident.Obj.Decl.(*ast.AssignStmt)`; for an `err` identifier whose
declaration is a function parameter (an `*ast.Field`) the assertion
panics, so the harness does crash on well-formed source input. -/
theorem findAssignStmt_panics_on_field :
    findAssignStmtFromIdent ⟨"err", some ⟨some (ObjDecl.field "err error")⟩⟩ =
      Except.error GoPanic.typeAssertion := rfl

/-- The parsed call-site file of the NoErr panic scenario: line 23 holds
`is.NoErr(err)` where `err` resolves to a function parameter. -/
def noErrFile : ParsedFile :=
  ⟨[], [⟨23, .selIdent "is" "NoErr",
        [.identArg ⟨"err", some ⟨some (.field "err error")⟩⟩]⟩]⟩

/-- Environment for the NoErr panic scenario: the caller sits at line 23 of
a parseable test file. -/
def noErrEnv : Env :=
  ⟨[⟨"/tmp/x_test.go", 23⟩],
   fun p => if p == "/tmp/x_test.go" then some noErrFile else none⟩

/-- C5 (code bug): a failing `NoErr` call whose argument is an identifier
declared as a function parameter panics inside the argument-source lookup
BEFORE writing anything to the sink or invoking the failure callback —
the assertion produces zero blocks and zero callback invocations instead
of exactly one of each. -/
theorem noErr_panics_without_reporting :
    I.NoErr false noErrEnv [] (some (GoVal.vstring 0 "not found")) =
      Except.error GoPanic.typeAssertion := by decide

/-! ## Behaviour of the cache across a run -/

theorem gnfc_warm (fs : FS) (cache : AstCache) (k : CacheEntryType)
    (path : String) (line : Nat) (fc : FileCache)
    (h : List.lookup path cache = some fc) :
    getNodeFromCache fs cache k path line =
      match List.lookup (cacheKey k line) fc with
      | some entry => ⟨.ok entry, false, cache⟩
      | none => ⟨.error ("key " ++ cacheKey k line ++ " not found in cache"), false, cache⟩ := by
  unfold getNodeFromCache getFileCache
  rw [h]
  rfl

theorem gnfc_freshFail (fs : FS) (cache : AstCache) (k : CacheEntryType)
    (path : String) (line : Nat)
    (h : List.lookup path cache = none) (hf : fs path = none) :
    getNodeFromCache fs cache k path line =
      ⟨.error "parse error", true, (path, []) :: cache⟩ := by
  unfold getNodeFromCache getFileCache
  rw [h, hf]
  rfl

theorem gnfc_freshOk (fs : FS) (cache : AstCache) (k : CacheEntryType)
    (path : String) (line : Nat) (f : ParsedFile)
    (h : List.lookup path cache = none) (hf : fs path = some f) :
    getNodeFromCache fs cache k path line =
      match List.lookup (cacheKey k line) (buildFileCache f) with
      | some entry =>
          ⟨.ok entry, true, (path, buildFileCache f) :: (path, []) :: cache⟩
      | none =>
          ⟨.error ("key " ++ cacheKey k line ++ " not found in cache"), true,
           (path, buildFileCache f) :: (path, []) :: cache⟩ := by
  unfold getNodeFromCache getFileCache buildFileCache
  rw [h, hf]
  rfl

theorem gnfc_lookup_other (fs : FS) (cache : AstCache) (k : CacheEntryType)
    (path : String) (line : Nat) (q : String) (hq : q ≠ path) :
    List.lookup q (getNodeFromCache fs cache k path line).cache =
      List.lookup q cache := by
  have hq2 : (q == path) = false := by simpa using hq
  cases h : List.lookup path cache with
  | some fc =>
      rw [gnfc_warm fs cache k path line fc h]
      cases List.lookup (cacheKey k line) fc <;> rfl
  | none =>
      cases hf : fs path with
      | none =>
          rw [gnfc_freshFail fs cache k path line h hf]
          simp [List.lookup, hq2]
      | some f =>
          rw [gnfc_freshOk fs cache k path line f h hf]
          cases List.lookup (cacheKey k line) (buildFileCache f) <;>
            simp [List.lookup, hq2]

theorem gnfc_lookup_self (fs : FS) (cache : AstCache) (k : CacheEntryType)
    (path : String) (line : Nat) :
    (List.lookup path (getNodeFromCache fs cache k path line).cache).isSome := by
  cases h : List.lookup path cache with
  | some fc =>
      rw [gnfc_warm fs cache k path line fc h]
      cases List.lookup (cacheKey k line) fc <;> simp [h]
  | none =>
      cases hf : fs path with
      | none =>
          rw [gnfc_freshFail fs cache k path line h hf]
          simp [List.lookup]
      | some f =>
          rw [gnfc_freshOk fs cache k path line f h hf]
          cases List.lookup (cacheKey k line) (buildFileCache f) <;>
            simp [List.lookup]

theorem gnfc_parsed_warm (fs : FS) (cache : AstCache) (k : CacheEntryType)
    (path : String) (line : Nat)
    (h : (List.lookup path cache).isSome) :
    (getNodeFromCache fs cache k path line).parsed = false ∧
    (getNodeFromCache fs cache k path line).cache = cache := by
  rcases Option.isSome_iff_exists.mp h with ⟨fc, hfc⟩
  rw [gnfc_warm fs cache k path line fc hfc]
  cases List.lookup (cacheKey k line) fc <;> exact ⟨rfl, rfl⟩

/-- One Source-Index request: the node kind, file path and line queried. -/
structure CacheOp where
  kind : CacheEntryType
  path : String
  line : Nat

/-- State of the Source Index over a run: the cache, plus the list of
paths `parser.ParseFile` has been invoked on, in invocation order. -/
structure SIState where
  cache : AstCache
  parsedPaths : List String

/-- The state at process start: empty cache, no parses. -/
def initSIState : SIState := ⟨[], []⟩

/-- Execute one cache request against the state. -/
def runOp (fs : FS) (st : SIState) (op : CacheOp) : SIState :=
  let r := getNodeFromCache fs st.cache op.kind op.path op.line
  ⟨r.cache, st.parsedPaths ++ (if r.parsed then [op.path] else [])⟩

/-- Execute a sequence of cache requests in order. -/
def runOps (fs : FS) (ops : List CacheOp) (st : SIState) : SIState :=
  ops.foldl (runOp fs) st

/-- Run invariant: the parse log has no duplicates and every parsed path
has an installed file cache. -/
def SIInv (st : SIState) : Prop :=
  st.parsedPaths.Nodup ∧ ∀ p ∈ st.parsedPaths, (List.lookup p st.cache).isSome

theorem runOp_inv (fs : FS) (st : SIState) (op : CacheOp) (h : SIInv st) :
    SIInv (runOp fs st op) := by
  show SIInv ⟨(getNodeFromCache fs st.cache op.kind op.path op.line).cache,
    st.parsedPaths ++
      (if (getNodeFromCache fs st.cache op.kind op.path op.line).parsed = true
       then [op.path] else [])⟩
  cases hw : (getNodeFromCache fs st.cache op.kind op.path op.line).parsed
  · rw [if_neg (by simp)]
    have hwn : (List.lookup op.path st.cache).isSome := by
      by_contra hc
      have hnone : List.lookup op.path st.cache = none := by
        cases hl : List.lookup op.path st.cache
        · rfl
        · rw [hl] at hc; simp at hc
      cases hf : fs op.path with
      | none =>
          rw [gnfc_freshFail fs st.cache op.kind op.path op.line hnone hf] at hw
          cases hw
      | some f =>
          rw [gnfc_freshOk fs st.cache op.kind op.path op.line f hnone hf] at hw
          revert hw
          cases List.lookup (cacheKey op.kind op.line) (buildFileCache f) <;>
            intro hw <;> cases hw
    have hw2 := gnfc_parsed_warm fs st.cache op.kind op.path op.line hwn
    rw [hw2.2]
    exact ⟨by simpa using h.1, fun p hp => h.2 p (by simpa using hp)⟩
  · rw [if_pos rfl]
    have hnone : List.lookup op.path st.cache = none := by
      by_contra hc
      have hs : (List.lookup op.path st.cache).isSome := by
        cases hl : List.lookup op.path st.cache
        · exact absurd hl hc
        · rfl
      have := (gnfc_parsed_warm fs st.cache op.kind op.path op.line hs).1
      rw [this] at hw
      cases hw
    refine ⟨?_, ?_⟩
    · rw [List.nodup_append]
      refine ⟨h.1, List.nodup_singleton _, ?_⟩
      intro p hp hq
      rw [List.mem_singleton] at hq
      subst hq
      have := h.2 op.path hp
      rw [hnone] at this
      cases this
    · intro p hp
      rw [List.mem_append, List.mem_singleton] at hp
      rcases hp with hp | hp
      · rcases eq_or_ne p op.path with hq | hq
        · subst hq; exact gnfc_lookup_self fs st.cache op.kind op.path op.line
        · rw [gnfc_lookup_other fs st.cache op.kind op.path op.line p hq]
          exact h.2 p hp
      · subst hp
        exact gnfc_lookup_self fs st.cache op.kind op.path op.line

theorem runOps_inv (fs : FS) : ∀ (ops : List CacheOp) (st : SIState),
    SIInv st → SIInv (runOps fs ops st)
  | [], _, h => h
  | op :: rest, st, h => runOps_inv fs rest (runOp fs st op) (runOp_inv fs st op h)

/-- Invariant for a file that does not parse: its cache slot is absent or
holds the forever-empty map. -/
def NoParseInv (path : String) (st : SIState) : Prop :=
  List.lookup path st.cache = none ∨ List.lookup path st.cache = some []

theorem runOp_noParseInv (fs : FS) (path : String) (hf : fs path = none)
    (st : SIState) (op : CacheOp) (h : NoParseInv path st) :
    NoParseInv path (runOp fs st op) := by
  show NoParseInv path ⟨(getNodeFromCache fs st.cache op.kind op.path op.line).cache, _⟩
  unfold NoParseInv at h ⊢
  rcases eq_or_ne path op.path with hq | hq
  · subst hq
    rcases h with h | h
    · rw [gnfc_freshFail fs st.cache op.kind op.path op.line h hf]
      right
      simp [List.lookup]
    · have := gnfc_parsed_warm fs st.cache op.kind op.path op.line (by rw [h]; rfl)
      rw [this.2]
      right
      exact h
  · rw [gnfc_lookup_other fs st.cache op.kind op.path op.line path hq]
    exact h

theorem runOps_noParseInv (fs : FS) (path : String) (hf : fs path = none) :
    ∀ (ops : List CacheOp) (st : SIState),
      NoParseInv path st → NoParseInv path (runOps fs ops st)
  | [], _, h => h
  | op :: rest, st, h =>
      runOps_noParseInv fs path hf rest (runOp fs st op) (runOp_noParseInv fs path hf st op h)

/-- C7 (amended, sequential part): across any SEQUENTIAL history of
Source-Index requests starting from the empty process-wide cache — each
`getNodeFromCache` call completing before the next begins — each file path
is parsed at most once; repeating a request immediately leaves the cache
bit-for-bit unchanged, parses nothing, and observes the same
found/not-found lookup result; when a file does not parse, every request
for any line of it (after any request history) observes not-found; and a
request never touches the cached entry of any other path.  The concurrent
part of the original claim is refuted by the interleaving counterexample
below. -/
theorem sourceIndex_cache_properties (fs : FS) :
    (∀ ops : List CacheOp, (runOps fs ops initSIState).parsedPaths.Nodup) ∧
    (∀ (cache : AstCache) (k : CacheEntryType) (path : String) (line : Nat),
      (getNodeFromCache fs (getNodeFromCache fs cache k path line).cache k path line).cache =
        (getNodeFromCache fs cache k path line).cache ∧
      (getNodeFromCache fs (getNodeFromCache fs cache k path line).cache k path line).parsed =
        false ∧
      (getNodeFromCache fs (getNodeFromCache fs cache k path line).cache k path line).result.toOption =
        (getNodeFromCache fs cache k path line).result.toOption) ∧
    (∀ (ops : List CacheOp) (k : CacheEntryType) (path : String) (line : Nat),
      fs path = none →
      (getNodeFromCache fs (runOps fs ops initSIState).cache k path line).result.toOption =
        none) ∧
    (∀ (cache : AstCache) (k : CacheEntryType) (path : String) (line : Nat) (q : String),
      q ≠ path →
      List.lookup q (getNodeFromCache fs cache k path line).cache = List.lookup q cache) := by
  refine ⟨?_, ?_, ?_, ?_⟩
  · intro ops
    exact (runOps_inv fs ops initSIState ⟨List.nodup_nil, by intro p hp; cases hp⟩).1
  · intro cache k path line
    cases h : List.lookup path cache with
    | some fc =>
        have h1 := gnfc_warm fs cache k path line fc h
        have hcache : (getNodeFromCache fs cache k path line).cache = cache := by
          rw [h1]; cases List.lookup (cacheKey k line) fc <;> rfl
        rw [hcache, h1]
        cases List.lookup (cacheKey k line) fc <;> exact ⟨rfl, rfl, rfl⟩
    | none =>
        cases hf : fs path with
        | none =>
            have h1 := gnfc_freshFail fs cache k path line h hf
            rw [h1]
            have h2 := gnfc_warm fs ((path, []) :: cache) k path line []
              (by simp [List.lookup])
            rw [h2]
            exact ⟨rfl, rfl, rfl⟩
        | some f =>
            have h1 := gnfc_freshOk fs cache k path line f h hf
            rw [h1]
            cases hk : List.lookup (cacheKey k line) (buildFileCache f) with
            | some entry =>
                have h2 := gnfc_warm fs
                  ((path, buildFileCache f) :: (path, []) :: cache) k path line
                  (buildFileCache f) (by simp [List.lookup])
                rw [h2, hk]
                exact ⟨rfl, rfl, rfl⟩
            | none =>
                have h2 := gnfc_warm fs
                  ((path, buildFileCache f) :: (path, []) :: cache) k path line
                  (buildFileCache f) (by simp [List.lookup])
                rw [h2, hk]
                exact ⟨rfl, rfl, rfl⟩
  · intro ops k path line hf
    have hinv := runOps_noParseInv fs path hf ops initSIState (Or.inl rfl)
    rcases hinv with h | h
    · rw [gnfc_freshFail fs _ k path line h hf]
      rfl
    · rw [gnfc_warm fs _ k path line [] h]
      rfl
  · intro cache k path line q hq
    exact gnfc_lookup_other fs cache k path line q hq

/-! ## Pure views of lookups on a warm cache -/

/-- The value `loadArguments` yields once the file's cache map is `fc`
(pure view of is.go:560-577 against a warm cache). -/
def fcArgs (fc : FileCache) (line : Nat) : Except GoPanic (Option String) :=
  match List.lookup (cacheKey .isCall line) fc with
  | none => .ok none
  | some entry => argsOfNode (.ok entry)

/-- The value `loadComment` yields once the file's cache map is `fc`. -/
def fcComment (fc : FileCache) (line : Nat) : Option String :=
  match List.lookup (cacheKey .comment line) fc with
  | none => none
  | some entry => commentOfNode (.ok entry)

theorem loadArguments_warm (fs : FS) (cache : AstCache) (path : String) (line : Nat)
    (fc : FileCache) (h : List.lookup path cache = some fc) :
    loadArguments fs cache path line = (fcArgs fc line, cache) := by
  unfold loadArguments fcArgs
  rw [gnfc_warm fs cache .isCall path line fc h]
  cases hk : List.lookup (cacheKey .isCall line) fc with
  | none => rfl
  | some node => rfl

theorem loadComment_warm (fs : FS) (cache : AstCache) (path : String) (line : Nat)
    (fc : FileCache) (h : List.lookup path cache = some fc) :
    loadComment fs cache path line = (fcComment fc line, cache) := by
  unfold loadComment fcComment
  rw [gnfc_warm fs cache .comment path line fc h]
  cases hk : List.lookup (cacheKey .comment line) fc with
  | none => rfl
  | some node => rfl

/-- One line of the decorate loop, given the resolved argument text
(is.go:615-619): a line containing `$ARGS` has every occurrence replaced;
any other line passes through unchanged. -/
def expandLine (args l : String) : String :=
  if strContainsSub l "$ARGS" then strReplaceAll l "$ARGS" args else l

/-- Lines joined with the continuation indent `"\n\t\t"`; the flag says
whether the first line is still flush after the prefix. -/
def indentedConcat : Bool → List String → String
  | _, [] => ""
  | first, l :: rest => (if first then "" else "\n\t\t") ++ l ++ indentedConcat false rest

theorem decorateLines_warm (fs : FS) (path : String) (line : Nat)
    (cache : AstCache) (fc : FileCache) (aopt : Option String)
    (h : List.lookup path cache = some fc) (ha : fcArgs fc line = Except.ok aopt) :
    ∀ (ls : List String) (acc : String) (first : Bool),
      decorateLines fs path line ls acc first cache =
        .ok (acc ++ indentedConcat first (ls.map (expandLine (aopt.getD ""))), cache)
  | [], acc, first => by
      rw [decorateLines, List.map_nil, indentedConcat, String.append_empty]
  | l :: rest, acc, first => by
      cases hc : strContainsSub l "$ARGS"
      · simp only [decorateLines, hc, Bool.false_eq_true, if_false]
        rw [decorateLines_warm fs path line cache fc aopt h ha rest _ false]
        simp only [List.map_cons, indentedConcat, expandLine, hc, Bool.false_eq_true, if_false]
        simp [String.append_assoc]
      · simp only [decorateLines, hc, if_true]
        rw [loadArguments_warm fs cache path line fc h, ha]
        show decorateLines fs path line rest
          ((acc ++ if first = true then "" else "\n\t\t") ++
            strReplaceAll l "$ARGS" (aopt.getD "")) false cache = _
        rw [decorateLines_warm fs path line cache fc aopt h ha rest _ false]
        simp only [List.map_cons, indentedConcat, expandLine, hc, if_true]
        simp [String.append_assoc]

/-- Witness for C7 at a concrete parser oracle, request history, path and
line, discharging the `fs path = none` and `q ≠ path` hypotheses. -/
theorem sourceIndex_cache_properties_witness :
    (getNodeFromCache (fun _ => none)
        (runOps (fun _ => none) [⟨CacheEntryType.comment, "/a.go", 3⟩] initSIState).cache
        CacheEntryType.comment "/a.go" 3).result.toOption = none ∧
    List.lookup "/b.go"
        (getNodeFromCache (fun _ => none) [] CacheEntryType.comment "/a.go" 3).cache =
      List.lookup "/b.go" ([] : AstCache) :=
  ⟨(sourceIndex_cache_properties (fun _ => none)).2.2.1
      [⟨CacheEntryType.comment, "/a.go", 3⟩] CacheEntryType.comment "/a.go" 3 rfl,
   (sourceIndex_cache_properties (fun _ => none)).2.2.2
      [] CacheEntryType.comment "/a.go" 3 "/b.go" (by decide)⟩

/-! ## Concurrent access to the cache

`astCache` is a plain global map: neither `getFileCache` nor
`getNodeFromCache` takes a lock (the package imports no `sync`), so
parallel subtests can interleave their first accesses to a path.  The
model below decomposes one `getNodeFromCache` call into its shared-memory
steps — the `astCache[path]` read, the empty-map install, the per-file key
lookup (through the map reference the thread holds), the
`parser.ParseFile` call, and the populate-and-relookup — and makes each
step atomic.  This is generous to the code: Go promises no atomicity for
map operations at all (concurrent map writes abort the process), so any
behaviour exhibited here is a behaviour of the program under an
interleaving. -/

/-- A thread's position inside one `getNodeFromCache` call.  File maps are
named by heap identities so that the map reference a thread obtained keeps
designating the same (mutable) map. -/
inductive TPC where
  | start
  | missed
  | haveRef (id : Nat) (isNew : Bool)
  | needParse (id : Nat)
  | publish (id : Nat) (f : ParsedFile)
  | finished (r : Except String AstNode)
deriving DecidableEq, Repr

/-- The shared state: `astCache` (path to file-map identity), the heap of
file maps, the allocator for fresh map identities, and the log of
`parser.ParseFile` invocations. -/
structure ConcState where
  astC : List (String × Nat)
  heap : List (Nat × FileCache)
  nextId : Nat
  parses : List String
deriving DecidableEq, Repr

/-- Read a file map from the heap (a present identity always has one). -/
def heapGet (h : List (Nat × FileCache)) (id : Nat) : FileCache :=
  (List.lookup id h).getD []

/-- One atomic step of a thread executing `getNodeFromCache` for `op`:
`start` is the `astCache[path]` read of `getFileCache`; `missed` is its
make-and-install write; `haveRef` is the `fileCache[key]` lookup plus the
`newCacheEntry` test; `needParse` is the `parser.ParseFile` call;
`publish` is the populate loop and final key lookup. -/
def threadStep (fs : FS) (op : CacheOp) (pc : TPC) (st : ConcState) : TPC × ConcState :=
  match pc with
  | .start =>
    match List.lookup op.path st.astC with
    | some id => (.haveRef id false, st)
    | none => (.missed, st)
  | .missed =>
    (.haveRef st.nextId true,
     ⟨(op.path, st.nextId) :: st.astC, (st.nextId, []) :: st.heap,
      st.nextId + 1, st.parses⟩)
  | .haveRef id isNew =>
    match List.lookup (cacheKey op.kind op.line) (heapGet st.heap id) with
    | some e => (.finished (.ok e), st)
    | none =>
      if !isNew then
        (.finished (.error ("key " ++ cacheKey op.kind op.line ++ " not found in cache")), st)
      else (.needParse id, st)
  | .needParse id =>
    match fs op.path with
    | none => (.finished (.error "parse error"),
        ⟨st.astC, st.heap, st.nextId, st.parses ++ [op.path]⟩)
    | some f => (.publish id f,
        ⟨st.astC, st.heap, st.nextId, st.parses ++ [op.path]⟩)
  | .publish id f =>
    let fc := storeCalls (storeComments (heapGet st.heap id) f.comments) f.calls
    let st2 : ConcState := ⟨st.astC, (id, fc) :: st.heap, st.nextId, st.parses⟩
    match List.lookup (cacheKey op.kind op.line) fc with
    | some e => (.finished (.ok e), st2)
    | none =>
      (.finished (.error ("key " ++ cacheKey op.kind op.line ++ " not found in cache")), st2)
  | .finished r => (.finished r, st)

/-- Two threads running the same request concurrently. -/
structure TwoThreads where
  pcA : TPC
  pcB : TPC
  st : ConcState
deriving DecidableEq, Repr

/-- Advance thread B (`true`) or thread A (`false`) by one atomic step. -/
def twoThreadStep (fs : FS) (op : CacheOp) (w : TwoThreads) (b : Bool) : TwoThreads :=
  if b then
    match threadStep fs op w.pcB w.st with
    | (pc2, st2) => ⟨w.pcA, pc2, st2⟩
  else
    match threadStep fs op w.pcA w.st with
    | (pc2, st2) => ⟨pc2, w.pcB, st2⟩

/-- Run an interleaving schedule from the process-start state. -/
def runSched (fs : FS) (op : CacheOp) (sched : List Bool) : TwoThreads :=
  sched.foldl (twoThreadStep fs op) ⟨.start, .start, ⟨[], [], 0, []⟩⟩

/-- The call-site file of the concurrent scenario: one comment on line 3. -/
def concFile : ParsedFile := ⟨[⟨3, "hello"⟩], []⟩

/-- Parser oracle of the concurrent scenario. -/
def concFS : FS := fun p => if p == "/t/a_test.go" then some concFile else none

/-- The request both threads issue. -/
def concOp : CacheOp := ⟨CacheEntryType.comment, "/t/a_test.go", 3⟩

/-- The interleaving: both threads read `astCache` before either installs;
thread A then completes its whole call, after which thread B — whose
`getFileCache` read already missed — installs its own fresh map over A's
published one and parses the file again. -/
def concSched : List Bool :=
  [false, true, false, false, false, false, true, true, true, true]

/-- C7 counterexample: under the interleaving `concSched`, both build
attempts complete — each returning the comment node — yet
`parser.ParseFile` runs TWICE for the one path, refuting "the Source Index
parses the file at most once per process" for a concurrent second build
attempt (thread B's install also replaces the map thread A published, so
the second attempt is observable as different cache content). -/
theorem sourceIndex_concurrent_double_parse :
    (runSched concFS concOp concSched).st.parses = ["/t/a_test.go", "/t/a_test.go"] ∧
    (runSched concFS concOp concSched).st.parses.count "/t/a_test.go" = 2 ∧
    (runSched concFS concOp concSched).pcA =
      .finished (.ok (.commentGroup "hello")) ∧
    (runSched concFS concOp concSched).pcB =
      .finished (.ok (.commentGroup "hello")) := by
  refine ⟨?_, ?_, ?_, ?_⟩
  · decide
  · decide
  · decide
  · decide

/-! ## Claims about the decorator -/

/-- C8 counterexample: the raw message `"$$ARGSARGS"` decorated with a
failed call-site resolution (empty stack, no parseable file) yields the
output `"\t???:1: $ARGS\n"`: the single `$ARGS` occurrence is removed, but
its removal splices the surrounding characters into a fresh `$ARGS`, so the
literal token does appear in the emitted output. -/
theorem decorate_args_token_survives :
    decorate false ⟨[], fun _ => none⟩ [] "$$ARGSARGS" =
      Except.ok ("\t???:1: $ARGS\n", [("", [])]) ∧
    strContainsSub "\t???:1: $ARGS\n" "$ARGS" = true := by
  constructor
  · rfl
  · decide

/-- C8 (amended): with the call-site file's cache entry in place, when
call-site resolution fails the location prefix is the sentinel `???` with
line 1 and the report is still emitted; and in every case each message
line has every occurrence of the substring `$ARGS` replaced by the
resolved argument text — by the empty string when none resolves — though
the spliced result may itself spell `$ARGS` again. -/
theorem decorate_sentinel_and_replacement :
    (∀ (env : Env) (cache : AstCache) (s : String) (fc : FileCache) (aopt : Option String),
      callerinfo env.stack = none →
      List.lookup "" cache = some fc →
      fcArgs fc 1 = Except.ok aopt →
      decorate false env cache s =
        .ok ("\t???:1: " ++
          indentedConcat true ((messageLines s).map (expandLine (aopt.getD ""))) ++
          commentSuffix false (fcComment fc 1) ++ "\n", cache)) ∧
    (∀ (env : Env) (cache : AstCache) (s : String) (path : String) (line : Nat)
        (fc : FileCache) (aopt : Option String),
      callerinfo env.stack = some ⟨path, line⟩ →
      List.lookup path cache = some fc →
      fcArgs fc line = Except.ok aopt →
      decorate false env cache s =
        .ok ("\t" ++ decorateFileName path ++ ":" ++ toString line ++ ": " ++
          indentedConcat true ((messageLines s).map (expandLine (aopt.getD ""))) ++
          commentSuffix false (fcComment fc line) ++ "\n", cache)) := by
  constructor
  · intro env cache s fc aopt hci hl ha
    have hp : resolvedPath env.stack = "" := by rw [resolvedPath, hci]
    have hf : resolvedFile env.stack = "???" := by rw [resolvedFile, hci]
    have hn : resolvedLine env.stack = 1 := by rw [resolvedLine, hci]
    simp only [decorate, hp, hf, hn]
    rw [decorateLines_warm env.fs "" 1 cache fc aopt hl ha (messageLines s) "" true]
    rw [decorateFinish, loadComment_warm env.fs cache "" 1 fc hl]
    rfl
  · intro env cache s path line fc aopt hci hl ha
    have hp : resolvedPath env.stack = path := by rw [resolvedPath, hci]
    have hf : resolvedFile env.stack = decorateFileName path := by rw [resolvedFile, hci]
    have hn : resolvedLine env.stack = line := by rw [resolvedLine, hci]
    simp only [decorate, hp, hf, hn]
    rw [decorateLines_warm env.fs path line cache fc aopt hl ha (messageLines s) "" true]
    rw [decorateFinish, loadComment_warm env.fs cache path line fc hl]
    simp only [Bool.false_eq_true, if_false, String.append_empty]
    simp [String.append_assoc]

/-! ## What the cache records, by receiver name -/

theorem cacheKey_comment_ne_isCall (a b : Nat) :
    cacheKey CacheEntryType.comment a ≠ cacheKey CacheEntryType.isCall b := by
  intro h
  have h2 : (cacheKey CacheEntryType.comment a).data.head? =
      (cacheKey CacheEntryType.isCall b).data.head? := by rw [h]
  have hC : (cacheKey CacheEntryType.comment a).data.head? = some 'C' := rfl
  have hI : (cacheKey CacheEntryType.isCall b).data.head? = some 'I' := rfl
  rw [hC, hI] at h2
  simp at h2

theorem storeComments_isCall_lookup :
    ∀ (cs : List CommentNode) (fc : FileCache) (line : Nat),
      List.lookup (cacheKey CacheEntryType.isCall line) (storeComments fc cs) =
        List.lookup (cacheKey CacheEntryType.isCall line) fc
  | [], _, _ => rfl
  | c :: rest, fc, line => by
      rw [storeComments, storeComments_isCall_lookup rest _ line]
      have hne : (cacheKey CacheEntryType.isCall line ==
          cacheKey CacheEntryType.comment c.line) = false := by
        simpa using Ne.symm (cacheKey_comment_ne_isCall c.line line)
      simp [List.lookup, hne]

theorem storeCalls_lookup :
    ∀ (calls : List CallExprNode) (fc : FileCache) (line : Nat) (node : AstNode),
      List.lookup (cacheKey CacheEntryType.isCall line) (storeCalls fc calls) = some node →
      (∃ c, c ∈ calls ∧ (∃ sel, c.fn = FunShape.selIdent "is" sel) ∧ node = .callExpr c) ∨
      List.lookup (cacheKey CacheEntryType.isCall line) fc = some node
  | [], _, _, _ => fun h => Or.inr h
  | c :: rest, fc, line, node => by
      intro h
      rw [storeCalls] at h
      cases hfn : c.fn with
      | selIdent recv sel =>
          rw [hfn] at h
          have h2 : List.lookup (cacheKey CacheEntryType.isCall line)
              (if (recv == "is") = true then
                storeCalls ((cacheKey CacheEntryType.isCall c.line, AstNode.callExpr c) :: fc) rest
              else storeCalls fc rest) = some node := h
          cases hrec : (recv == "is") with
          | false =>
              rw [hrec] at h2
              simp only [Bool.false_eq_true, if_false] at h2
              rcases storeCalls_lookup rest fc line node h2 with ⟨c2, hm, hs, hn⟩ | hR
              · exact Or.inl ⟨c2, List.mem_cons_of_mem c hm, hs, hn⟩
              · exact Or.inr hR
          | true =>
              rw [hrec] at h2
              simp only [if_true] at h2
              rcases storeCalls_lookup rest _ line node h2 with ⟨c2, hm, hs, hn⟩ | hR
              · exact Or.inl ⟨c2, List.mem_cons_of_mem c hm, hs, hn⟩
              · rw [List.lookup] at hR
                cases hk : (cacheKey CacheEntryType.isCall line ==
                    cacheKey CacheEntryType.isCall c.line) with
                | false => rw [hk] at hR; exact Or.inr hR
                | true =>
                    rw [hk] at hR
                    refine Or.inl ⟨c, List.mem_cons_self c rest, ⟨sel, ?_⟩, ?_⟩
                    · rw [hfn]
                      have : recv = "is" := by simpa using hrec
                      rw [this]
                    · cases hR
                      rfl
      | selOther sel =>
          rw [hfn] at h
          have h2 : List.lookup (cacheKey CacheEntryType.isCall line)
              (storeCalls fc rest) = some node := h
          rcases storeCalls_lookup rest fc line node h2 with ⟨c2, hm, hs, hn⟩ | hR
          · exact Or.inl ⟨c2, List.mem_cons_of_mem c hm, hs, hn⟩
          · exact Or.inr hR
      | notSelector =>
          rw [hfn] at h
          have h2 : List.lookup (cacheKey CacheEntryType.isCall line)
              (storeCalls fc rest) = some node := h
          rcases storeCalls_lookup rest fc line node h2 with ⟨c2, hm, hs, hn⟩ | hR
          · exact Or.inl ⟨c2, List.mem_cons_of_mem c hm, hs, hn⟩
          · exact Or.inr hR

theorem storeCalls_no_is :
    ∀ (calls : List CallExprNode) (fc : FileCache),
      (∀ c ∈ calls, ∀ sel, c.fn ≠ FunShape.selIdent "is" sel) →
      storeCalls fc calls = fc
  | [], _, _ => rfl
  | c :: rest, fc, h => by
      rw [storeCalls]
      cases hfn : c.fn with
      | selIdent recv sel =>
          show (if (recv == "is") = true then
              storeCalls ((cacheKey CacheEntryType.isCall c.line, AstNode.callExpr c) :: fc) rest
            else storeCalls fc rest) = fc
          cases hrec : (recv == "is") with
          | false =>
              simp only [Bool.false_eq_true, if_false]
              exact storeCalls_no_is rest fc fun c2 hm => h c2 (List.mem_cons_of_mem c hm)
          | true =>
              exfalso
              have hr : recv = "is" := by simpa using hrec
              exact h c (List.mem_cons_self c rest) sel (by rw [hfn, hr])
      | selOther sel =>
          exact storeCalls_no_is rest fc fun c2 hm => h c2 (List.mem_cons_of_mem c hm)
      | notSelector =>
          exact storeCalls_no_is rest fc fun c2 hm => h c2 (List.mem_cons_of_mem c hm)

theorem buildFileCache_no_is (f : ParsedFile) (line : Nat)
    (hno : ∀ c ∈ f.calls, ∀ sel, c.fn ≠ FunShape.selIdent "is" sel) :
    List.lookup (cacheKey CacheEntryType.isCall line) (buildFileCache f) = none := by
  unfold buildFileCache
  rw [storeCalls_no_is f.calls _ hno, storeComments_isCall_lookup f.comments [] line]
  rfl

theorem loadArguments_no_is (f : ParsedFile) (path : String) (line : Nat) (fsx : FS)
    (hfs : fsx path = some f)
    (hno : ∀ c ∈ f.calls, ∀ sel, c.fn ≠ FunShape.selIdent "is" sel) :
    loadArguments fsx [] path line =
      (.ok none, (path, buildFileCache f) :: (path, []) :: []) := by
  unfold loadArguments
  rw [gnfc_freshOk fsx [] .isCall path line f rfl hfs]
  rw [buildFileCache_no_is f line hno]
  rfl

/-- Does no call of the parsed file have the receiver identifier `is`?
Decidable form of the "harness bound to another variable name" premise. -/
def noIsRecv (f : ParsedFile) : Bool :=
  f.calls.all fun c =>
    match c.fn with
    | .selIdent recv _ => !(recv == "is")
    | _ => true

theorem noIsRecv_spec (f : ParsedFile) (h : noIsRecv f = true) :
    ∀ c ∈ f.calls, ∀ sel, c.fn ≠ FunShape.selIdent "is" sel := by
  intro c hm sel hface
  have h2 := List.all_eq_true.mp h c hm
  rw [hface] at h2
  simp at h2

/-- C10: the Source Index records a call expression under an `IsCall` key
only when the call's receiver is an identifier literally named `"is"`:
every node it records is one of the file's `is.…` call expressions; when
the harness is bound to any other variable name, the argument-text lookup
for the call line returns not-found; and a failing `True` assertion in
such a file still writes exactly one block — with the `$ARGS` expansion
silently omitted from the message — and fires the failure callback exactly
once. -/
theorem sourceIndex_only_is_receiver :
    (∀ (f : ParsedFile) (line : Nat) (node : AstNode),
      List.lookup (cacheKey CacheEntryType.isCall line) (buildFileCache f) = some node →
      ∃ c, c ∈ f.calls ∧ (∃ sel, c.fn = FunShape.selIdent "is" sel) ∧ node = .callExpr c) ∧
    (∀ (f : ParsedFile) (path : String) (line : Nat) (fsx : FS),
      fsx path = some f → noIsRecv f = true →
      loadArguments fsx [] path line =
        (.ok none, (path, buildFileCache f) :: (path, []) :: [])) ∧
    (∀ (path : String) (lineN : Nat) (f : ParsedFile) (fsx : FS),
      strHasSuffix path "is.go" = false →
      fsx path = some f → noIsRecv f = true →
      I.True false ⟨[⟨path, lineN⟩], fsx⟩ [] false =
        .ok ⟨["\t" ++ decorateFileName path ++ ":" ++ toString lineN ++ ": " ++ "not true: " ++
              commentSuffix false (fcComment (buildFileCache f) lineN) ++ "\n"], 1,
             (path, buildFileCache f) :: (path, []) :: []⟩) := by
  refine ⟨?_, ?_, ?_⟩
  · intro f line node h
    unfold buildFileCache at h
    rcases storeCalls_lookup f.calls _ line node h with hL | hR
    · exact hL
    · rw [storeComments_isCall_lookup f.comments [] line] at hR
      cases hR
  · intro f path line fsx hfs hno
    exact loadArguments_no_is f path line fsx hfs (noIsRecv_spec f hno)
  · intro path lineN f fsx hsuf hfs hno
    have hci : callerinfo [⟨path, lineN⟩] = some ⟨path, lineN⟩ := by
      rw [callerinfo, if_neg (by simp [hsuf])]
    have hp : resolvedPath [⟨path, lineN⟩] = path := by rw [resolvedPath, hci]
    have hf2 : resolvedFile [⟨path, lineN⟩] = decorateFileName path := by
      rw [resolvedFile, hci]
    have hn : resolvedLine [⟨path, lineN⟩] = lineN := by rw [resolvedLine, hci]
    have hargs := loadArguments_no_is f path lineN fsx hfs (noIsRecv_spec f hno)
    have h1 : decorateLines fsx path lineN (messageLines "not true: $ARGS") "" true [] =
        .ok ("not true: ", (path, buildFileCache f) :: (path, []) :: []) := by
      rw [show messageLines "not true: $ARGS" = ["not true: $ARGS"] from rfl]
      rw [show decorateLines fsx path lineN ["not true: $ARGS"] "" true [] =
          (match loadArguments fsx [] path lineN with
           | (.error p, _) => (.error p : Except GoPanic (String × AstCache))
           | (.ok argOpt, cache1) =>
               decorateLines fsx path lineN []
                 ("" ++ "" ++ strReplaceAll "not true: $ARGS" "$ARGS" (argOpt.getD ""))
                 false cache1)
          from rfl]
      rw [hargs]
      rfl
    show logCall false ⟨[⟨path, lineN⟩], fsx⟩ [] "not true: $ARGS" = _
    unfold logCall decorate
    simp only [hp, hf2, hn, h1]
    rw [decorateFinish]
    rw [loadComment_warm fsx ((path, buildFileCache f) :: (path, []) :: []) path lineN
      (buildFileCache f) (by simp [List.lookup])]
    simp only [Bool.false_eq_true, if_false, String.append_empty, String.empty_append]

/-- A parsed call-site file whose single recorded call uses the receiver
name `myIs` instead of `is`. -/
def otherNameFile : ParsedFile :=
  ⟨[], [⟨7, .selIdent "myIs" "True", [.otherArg "1 == 2"]⟩]⟩

/-- Witness for C10 at a concrete file bound to the name `myIs`. -/
theorem sourceIndex_only_is_receiver_witness :
    I.True false ⟨[⟨"/t/other_test.go", 7⟩],
        fun p => if p == "/t/other_test.go" then some otherNameFile else none⟩ [] false =
      .ok ⟨["\t" ++ decorateFileName "/t/other_test.go" ++ ":" ++ toString 7 ++ ": " ++
            "not true: " ++
            commentSuffix false (fcComment (buildFileCache otherNameFile) 7) ++ "\n"], 1,
           ("/t/other_test.go", buildFileCache otherNameFile) ::
             ("/t/other_test.go", []) :: []⟩ :=
  sourceIndex_only_is_receiver.2.2 "/t/other_test.go" 7 otherNameFile
    (fun p => if p == "/t/other_test.go" then some otherNameFile else none)
    (by decide) (by decide) (by decide)

/-- Witness for the amended C8: sentinel leg applied at a concrete
environment with an empty stack and a warmed (empty) cache entry for the
zero-value path. -/
theorem decorate_sentinel_and_replacement_witness :
    decorate false ⟨[], fun _ => none⟩ [("", [])] "not true: $ARGS" =
      Except.ok ("\t???:1: " ++
        indentedConcat true ((messageLines "not true: $ARGS").map
          (expandLine ((none : Option String).getD ""))) ++
        commentSuffix false (fcComment [] 1) ++ "\n", [("", [])]) :=
  decorate_sentinel_and_replacement.1 ⟨[], fun _ => none⟩ [("", [])]
    "not true: $ARGS" [] none rfl (by decide) rfl
